import Mathlib

/-!
Verification development for the webpack repository snapshot.

The definitions below are shallow embeddings of:
 - the emitted jsonp chunk-loading runtime shown in
   src/examples/code-splitting-bundle-loader/README.md (dist/output.js,
   runtime module "jsonp chunk loading", lines 140-252): the
   `installedChunks` table, `__webpack_require__.f.j`, `loadingEnded`,
   `onScriptComplete`, the 120000 ms timeout, and `webpackJsonpCallback`;
 - the bundle-loader wrapper module (same file, lines 91-108);
 - `WebpackOptionsApply.process` module/chunk id switches and
   `LibManifestPlugin` (src/lib/WebpackOptionsApply.js);
 - `EvalSourceMapDevToolModuleTemplatePlugin`, `NodeStuffPlugin` and the
   two module-decorator runtime modules (src/unnamed/part_000).

JavaScript objects used as dictionaries are modelled as association lists,
promises by numeric identities with an explicit state table, and the
JavaScript truthiness cases of `installedChunks[chunkId]`
(undefined / null / array / 0) by the inductive type `ChunkEntry`.
-/

namespace Webpack

/-- Association-list lookup: first binding wins, like reading a JS object key. -/
def alookup {κ α : Type} [DecidableEq κ] : List (κ × α) → κ → Option α
  | [], _ => none
  | (k, v) :: t, q => if k = q then some v else alookup t q

/-- Association-list assignment: overwrite the existing binding or append,
like writing a JS object key. -/
def aset {κ α : Type} [DecidableEq κ] : List (κ × α) → κ → α → List (κ × α)
  | [], k, v => [(k, v)]
  | (k0, v0) :: t, k, v => if k0 = k then (k, v) :: t else (k0, v0) :: aset t k v

/-- Association-list deletion, used to model `clearTimeout`. -/
def aremove {κ α : Type} [DecidableEq κ] : List (κ × α) → κ → List (κ × α)
  | [], _ => []
  | (k0, v0) :: t, q => if k0 = q then aremove t q else (k0, v0) :: aremove t q

theorem alookup_aset {κ α : Type} [DecidableEq κ] (l : List (κ × α)) (k q : κ) (v : α) :
    alookup (aset l k v) q = if k = q then some v else alookup l q := by
  induction l with
  | nil => by_cases h : k = q <;> simp [aset, alookup, h]
  | cons hd tl ih =>
    obtain ⟨k0, v0⟩ := hd
    by_cases h0 : k0 = k
    · subst h0
      by_cases h : k0 = q <;> simp [aset, alookup, h]
    · by_cases h : k0 = q
      · subst h
        have hkq : ¬ k = k0 := fun he => h0 he.symm
        simp [aset, h0, alookup, hkq]
      · simp [aset, h0, alookup, h, ih]

theorem alookup_aremove {κ α : Type} [DecidableEq κ] (l : List (κ × α)) (k q : κ) :
    alookup (aremove l k) q = if k = q then none else alookup l q := by
  induction l with
  | nil => by_cases h : k = q <;> simp [aremove, alookup, h]
  | cons hd tl ih =>
    obtain ⟨k0, v0⟩ := hd
    by_cases h0 : k0 = k
    · subst h0
      by_cases h : k0 = q
      · subst h
        simpa [aremove] using ih
      · simp [aremove, alookup, h, ih]
    · by_cases h : k0 = q
      · subst h
        have hkq : ¬ k = k0 := fun he => h0 he.symm
        simp [aremove, h0, alookup, hkq]
      · simp [aremove, h0, alookup, h, ih]

/-- Lookup after a left fold of assignments: a key written once whose later
items never rewrite it keeps its value.  Used for the `moreModules` merge
loop of `webpackJsonpCallback` and the `reduce` of `LibManifestPlugin`. -/
theorem alookup_foldl_aset_of_not_mem {κ α : Type} [DecidableEq κ]
    (items : List (κ × α)) (t : List (κ × α)) (k : κ)
    (hk : k ∉ items.map Prod.fst) :
    alookup (items.foldl (fun obj it => aset obj it.1 it.2) t) k = alookup t k := by
  induction items generalizing t with
  | nil => rfl
  | cons hd tl ih =>
    have hk1 : k ∉ tl.map Prod.fst := by
      intro h; exact hk (by simp [h])
    have hk0 : hd.1 ≠ k := by
      intro h; exact hk (by simp [h])
    rw [List.foldl_cons, ih (aset t hd.1 hd.2) hk1, alookup_aset, if_neg hk0]

theorem alookup_foldl_aset {κ α : Type} [DecidableEq κ]
    (items : List (κ × α)) (t : List (κ × α)) (k : κ) (v : α)
    (hnd : (items.map Prod.fst).Nodup) (hmem : (k, v) ∈ items) :
    alookup (items.foldl (fun obj it => aset obj it.1 it.2) t) k = some v := by
  revert hnd hmem
  induction items generalizing t with
  | nil => intro hnd hmem; cases hmem
  | cons hd tl ih =>
    intro hnd hmem
    rcases List.mem_cons.mp hmem with hhd | htl
    · subst hhd
      have hk : k ∉ tl.map Prod.fst := by
        have h2 := hnd
        simp only [List.map_cons, List.nodup_cons] at h2
        exact h2.1
      rw [List.foldl_cons,
        alookup_foldl_aset_of_not_mem tl (aset t (k, v).1 (k, v).2) k hk, alookup_aset,
        if_pos rfl]
    · have hnd1 : (tl.map Prod.fst).Nodup := by
        simp only [List.map_cons, List.nodup_cons] at hnd
        exact hnd.2
      rw [List.foldl_cons]
      exact ih (aset t hd.1 hd.2) hnd1 htl

/-! ## The jsonp chunk-loading runtime

`installedChunks` values, per the comment in the emitted runtime:
`undefined` = chunk not loaded, `null` = chunk preloaded/prefetched,
`[resolve, reject, promise]` = chunk loading, `0` = chunk loaded.
A loading entry is represented by the identity of its promise; the
`resolve`/`reject` functions stored in the array are exactly the resolver
and rejecter of that promise. -/

inductive ChunkEntry : Type
  | notLoaded
  | preloaded
  | loading (promiseId : Nat)
  | installed
deriving DecidableEq, Repr

inductive PromiseState : Type
  | pending
  | resolvedP
  | rejectedP (errorType : String)
deriving DecidableEq, Repr

/-- Observable actions of `webpackJsonpCallback`, in execution order. -/
inductive REvent : Type
  | runtimeRun
  | parentNotified
  | resolveCalled (promiseId : Nat)
deriving DecidableEq, Repr

structure JsonpRuntime : Type where
  installedChunks : List (Nat × ChunkEntry)
  modules : List (Nat × Nat)
  promises : List (Nat × PromiseState)
  timers : List (Nat × Nat)
  nextId : Nat
  now : Nat
  fetches : List Nat
  events : List REvent
deriving DecidableEq, Repr

/-- Reading `installedChunks[chunkId]`: an absent key is `undefined`. -/
def entryIn (m : List (Nat × ChunkEntry)) (c : Nat) : ChunkEntry :=
  (alookup m c).getD ChunkEntry.notLoaded

def entryOf (s : JsonpRuntime) (c : Nat) : ChunkEntry :=
  entryIn s.installedChunks c

/-- Embedding of `__webpack_require__.f.j` (README lines 153-206).
`0` (installed) skips everything; a truthy entry (a loading array) pushes the
stored promise; otherwise (`undefined` or `null`, both falsy and `!== 0`) a
fresh promise is set up, the entry becomes `[resolve, reject, promise]`, a
script fetch is started and a 120000 ms timeout is scheduled. -/
def requireEnsureJ (s : JsonpRuntime) (chunkId : Nat) (promises : List Nat) :
    JsonpRuntime × List Nat :=
  match entryOf s chunkId with
  | ChunkEntry.installed => (s, promises)
  | ChunkEntry.loading p => (s, promises ++ [p])
  | _ =>
    let p := s.nextId
    ({ s with
        installedChunks := aset s.installedChunks chunkId (ChunkEntry.loading p),
        promises := aset s.promises p PromiseState.pending,
        timers := aset s.timers chunkId (s.now + 120000),
        nextId := s.nextId + 1,
        fetches := s.fetches ++ [chunkId] },
      promises ++ [p])

/-- Embedding of `onScriptComplete` together with `loadingEnded`
(README lines 170, 181-194).  `clearTimeout(timeout)` always runs; then
`loadingEnded` inspects `installedChunks[chunkId]`: a truthy loading entry
returns its reject function (note: without clearing the entry), `0` returns
`undefined`, anything else is set to `undefined`.  When a reject function was
returned, a structured error is built whose `type` is `'missing'` for a
`load` event and the event type otherwise, and the promise is rejected. -/
def onScriptComplete (s : JsonpRuntime) (chunkId : Nat) (eventType : String) :
    JsonpRuntime :=
  let s1 := { s with timers := aremove s.timers chunkId }
  match entryOf s1 chunkId with
  | ChunkEntry.loading p =>
    let errorType := if eventType = "load" then "missing" else eventType
    { s1 with promises := aset s1.promises p (PromiseState.rejectedP errorType) }
  | ChunkEntry.installed => s1
  | _ =>
    { s1 with installedChunks := aset s1.installedChunks chunkId ChunkEntry.notLoaded }

/-- The scheduled timeout firing is exactly
`onScriptComplete({ type: 'timeout', target: script })` (README lines 195-197). -/
def timerFire (s : JsonpRuntime) (chunkId : Nat) : JsonpRuntime :=
  onScriptComplete s chunkId "timeout"

/-- First loop of `webpackJsonpCallback` (README lines 226-232): for each
chunk id in order, a truthy entry contributes its resolve function to
`resolves`, then the entry is set to `0`.  Returns the updated table and the
promise identities to resolve, in collection order. -/
def markLoaded : List (Nat × ChunkEntry) → List Nat → List (Nat × ChunkEntry) × List Nat
  | m, [] => (m, [])
  | m, c :: cs =>
    let rs : List Nat :=
      match entryIn m c with
      | ChunkEntry.loading p => [p]
      | _ => []
    let rest := markLoaded (aset m c ChunkEntry.installed) cs
    (rest.1, rs ++ rest.2)

/-- The promise identities that `webpackJsonpCallback` will resolve: the
loading entries among `chunkIds`, in order. -/
def pendingResolves (m : List (Nat × ChunkEntry)) (cs : List Nat) : List Nat :=
  cs.filterMap (fun c =>
    match entryIn m c with
    | ChunkEntry.loading p => some p
    | _ => none)

/-- Embedding of `webpackJsonpCallback` (README lines 217-245).  The data
tuple carries `chunkIds = data[0]`, `moreModules = data[1]` and the optional
runtime injector `runtime = data[3]`.  Own entries of `moreModules` are merged
into the module table, every id in `chunkIds` is flagged loaded, then the
runtime injector runs when present, the parent jsonp function is notified, and
finally the collected resolves are drained FIFO (`resolves.shift()()`). -/
def webpackJsonpCallback (s : JsonpRuntime) (chunkIds : List Nat)
    (moreModules : List (Nat × Nat)) (hasRuntime : Bool) : JsonpRuntime :=
  let marked := markLoaded s.installedChunks chunkIds
  { s with
      installedChunks := marked.1,
      modules := moreModules.foldl (fun obj it => aset obj it.1 it.2) s.modules,
      promises := marked.2.foldl (fun ps p => aset ps p PromiseState.resolvedP) s.promises,
      events := s.events
        ++ (if hasRuntime then [REvent.runtimeRun] else [])
        ++ [REvent.parentNotified]
        ++ marked.2.map REvent.resolveCalled }

/-- The boot state of the emitted runtime: `var installedChunks = { 404: 0 };`
(README lines 147-149); the entry chunk 404 is already loaded, nothing is
loading, preloaded or fetched. -/
def initialState : JsonpRuntime :=
  { installedChunks := [(404, ChunkEntry.installed)],
    modules := [], promises := [], timers := [],
    nextId := 0, now := 0, fetches := [], events := [] }

/-- One step of the emitted runtime: a requester calls
`__webpack_require__.e`, a script load/error/timeout event fires, or a fetched
chunk artifact invokes the jsonp callback. -/
inductive Step : JsonpRuntime → JsonpRuntime → Prop
  | ensure {s : JsonpRuntime} (c : Nat) (ps : List Nat) :
      Step s (requireEnsureJ s c ps).1
  | script {s : JsonpRuntime} (c : Nat) (et : String) :
      Step s (onScriptComplete s c et)
  | jsonp {s : JsonpRuntime} (cs : List Nat) (mm : List (Nat × Nat)) (rt : Bool) :
      Step s (webpackJsonpCallback s cs mm rt)

/-- States the emitted runtime can actually reach from boot. -/
inductive Reach : JsonpRuntime → Prop
  | init : Reach initialState
  | step {s s' : JsonpRuntime} : Reach s → Step s s' → Reach s'

/-- No operation of this emitted runtime ever writes the `null`
(preloaded/prefetched) sentinel: the runtime was emitted with
"no chunk preloading needed" and "no prefetching". -/
def NoPreload (s : JsonpRuntime) : Prop :=
  ∀ c : Nat, entryOf s c ≠ ChunkEntry.preloaded

theorem entryIn_aset (m : List (Nat × ChunkEntry)) (k q : Nat) (v : ChunkEntry) :
    entryIn (aset m k v) q = if k = q then v else entryIn m q := by
  by_cases h : k = q <;> simp [entryIn, alookup_aset, h]

theorem markLoaded_no_preload (m : List (Nat × ChunkEntry)) (cs : List Nat) (q : Nat)
    (h : entryIn m q ≠ ChunkEntry.preloaded) :
    entryIn (markLoaded m cs).1 q ≠ ChunkEntry.preloaded := by
  induction cs generalizing m with
  | nil => simpa [markLoaded] using h
  | cons c cs ih =>
    simp only [markLoaded]
    apply ih
    rw [entryIn_aset]
    by_cases hc : c = q <;> simp [hc, h]

theorem step_no_preload {s s' : JsonpRuntime} (hstep : Step s s') (ih : NoPreload s) :
    NoPreload s' := by
  have ih2 : ∀ q, entryIn s.installedChunks q ≠ ChunkEntry.preloaded := ih
  cases hstep with
  | ensure c ps =>
    intro q
    cases he : entryIn s.installedChunks c with
    | installed => simpa [requireEnsureJ, entryOf, he] using ih2 q
    | loading p => simpa [requireEnsureJ, entryOf, he] using ih2 q
    | notLoaded =>
      simp only [requireEnsureJ, entryOf, he]
      simp only [entryIn_aset]
      by_cases hc : c = q <;> simp [hc]
      exact ih2 q
    | preloaded =>
      simp only [requireEnsureJ, entryOf, he]
      simp only [entryIn_aset]
      by_cases hc : c = q <;> simp [hc]
      exact ih2 q
  | script c et =>
    intro q
    cases he : entryIn s.installedChunks c with
    | installed => simpa [onScriptComplete, entryOf, he] using ih2 q
    | loading p => simpa [onScriptComplete, entryOf, he] using ih2 q
    | notLoaded =>
      simp only [onScriptComplete, entryOf, he]
      simp only [entryIn_aset]
      by_cases hc : c = q <;> simp [hc]
      exact ih2 q
    | preloaded =>
      simp only [onScriptComplete, entryOf, he]
      simp only [entryIn_aset]
      by_cases hc : c = q <;> simp [hc]
      exact ih2 q
  | jsonp cs mm rt =>
    intro q
    simp only [webpackJsonpCallback, entryOf]
    exact markLoaded_no_preload s.installedChunks cs q (ih2 q)

theorem reach_no_preload {s : JsonpRuntime} (h : Reach s) : NoPreload s := by
  induction h with
  | init =>
    intro c
    simp only [initialState, entryOf, entryIn, alookup]
    by_cases h404 : (404 : Nat) = c <;> simp [h404, alookup]
  | step _ hstep ih => exact step_no_preload hstep ih

/-- Iterating `__webpack_require__.e(c)` `n` times: each call passes a fresh
`promises` array to `__webpack_require__.f.j`; the promise it received is
recorded. -/
def requestN (s : JsonpRuntime) (c : Nat) : Nat → JsonpRuntime × List Nat
  | 0 => (s, [])
  | n + 1 =>
    let first := requireEnsureJ s c []
    let rest := requestN first.1 c n
    (rest.1, first.2 ++ rest.2)

theorem requestN_of_loading (s : JsonpRuntime) (c : Nat) (p : Nat) (n : Nat)
    (h : entryOf s c = ChunkEntry.loading p) :
    requestN s c n = (s, List.replicate n p) := by
  induction n with
  | zero => simp [requestN]
  | succ n ih =>
    have hfirst : requireEnsureJ s c [] = (s, [p]) := by
      simp [requireEnsureJ, h]
    simp [requestN, hfirst, ih, List.replicate_succ]

/-- The runtime state after requesting chunk 396 from boot and then receiving
a script `error` event for it. -/
def failedState : JsonpRuntime :=
  onScriptComplete (requireEnsureJ initialState 396 []).1 396 "error"

/-- C1: the claim says that after a chunk load failure the per-chunk state
entry is reset to unrequested so that a retry starts a new fetch.  The
emitted code does not do this: `loadingEnded` returns the reject function of
a loading entry without clearing it (the `installedChunks[chunkId] =
undefined` statement is unreachable for a loading entry because of the early
`return`), so after the error the entry is still the loading triple, a second
request is handed the old, already rejected promise, and no second fetch is
started.  This theorem evaluates the embedded runtime on that exact trace. -/
theorem chunk_failure_keeps_stale_entry :
    entryOf failedState 396 = ChunkEntry.loading 0
    ∧ entryOf failedState 396 ≠ ChunkEntry.notLoaded
    ∧ alookup failedState.promises 0 = some (PromiseState.rejectedP "error")
    ∧ (requireEnsureJ failedState 396 []).1.fetches = [396]
    ∧ (requireEnsureJ failedState 396 []).2 = [0] := by
  decide

/-- C2: at-most-one underlying fetch per chunk.  (i) A call to
`__webpack_require__.f.j` starts a fetch only when the entry is unrequested
(over reachable states - this runtime never preloads); (ii) `n ≥ 1`
requests against an unrequested chunk start exactly one fetch and every
requester is handed the same pending promise; (iii) a request after the
chunk is loaded changes nothing and starts no fetch. -/
theorem chunk_loading_single_fetch (s : JsonpRuntime) (hs : Reach s) (c : Nat)
    (ps : List Nat) (n : Nat) (hn : 1 ≤ n) :
    ((requireEnsureJ s c ps).1.fetches ≠ s.fetches → entryOf s c = ChunkEntry.notLoaded)
    ∧ (entryOf s c = ChunkEntry.notLoaded →
        (requestN s c n).1.fetches = s.fetches ++ [c]
        ∧ (requestN s c n).2 = List.replicate n s.nextId
        ∧ alookup (requestN s c n).1.promises s.nextId = some PromiseState.pending)
    ∧ (entryOf s c = ChunkEntry.installed → requireEnsureJ s c ps = (s, ps)) := by
  refine ⟨?_, ?_, ?_⟩
  · intro hf
    cases he : entryOf s c with
    | notLoaded => rfl
    | loading p => exact absurd (by simp [requireEnsureJ, he]) hf
    | installed => exact absurd (by simp [requireEnsureJ, he]) hf
    | preloaded => exact absurd he (reach_no_preload hs c)
  · intro he
    obtain ⟨m, rfl⟩ : ∃ m, n = m + 1 := ⟨n - 1, by omega⟩
    have hfirst :
        requireEnsureJ s c [] =
          ({ s with
              installedChunks := aset s.installedChunks c (ChunkEntry.loading s.nextId),
              promises := aset s.promises s.nextId PromiseState.pending,
              timers := aset s.timers c (s.now + 120000),
              nextId := s.nextId + 1,
              fetches := s.fetches ++ [c] }, [s.nextId]) := by
      simp [requireEnsureJ, he]
    have hload : entryOf (requireEnsureJ s c []).1 c = ChunkEntry.loading s.nextId := by
      rw [hfirst]
      simp [entryOf, entryIn_aset]
    have hrest := requestN_of_loading (requireEnsureJ s c []).1 c s.nextId m hload
    rw [hfirst] at hrest
    refine ⟨?_, ?_, ?_⟩
    · simp [requestN, hfirst, hrest]
    · simp [requestN, hfirst, hrest, List.replicate_succ]
    · simp [requestN, hfirst, hrest, alookup_aset]
  · intro he
    simp [requireEnsureJ, he]

theorem chunk_loading_single_fetch_witness :
    1 ≤ 2
    ∧ (((requireEnsureJ initialState 396 []).1.fetches ≠ initialState.fetches →
          entryOf initialState 396 = ChunkEntry.notLoaded)
        ∧ (entryOf initialState 396 = ChunkEntry.notLoaded →
            (requestN initialState 396 2).1.fetches = initialState.fetches ++ [396]
            ∧ (requestN initialState 396 2).2 = List.replicate 2 initialState.nextId
            ∧ alookup (requestN initialState 396 2).1.promises initialState.nextId =
                some PromiseState.pending)
        ∧ (entryOf initialState 396 = ChunkEntry.installed →
            requireEnsureJ initialState 396 [] = (initialState, []))) :=
  ⟨by decide, chunk_loading_single_fetch initialState Reach.init 396 [] 2 (by decide)⟩

theorem markLoaded_preserves_installed (m : List (Nat × ChunkEntry)) (cs : List Nat)
    (c : Nat) (h : entryIn m c = ChunkEntry.installed) :
    entryIn (markLoaded m cs).1 c = ChunkEntry.installed := by
  induction cs generalizing m with
  | nil => simpa [markLoaded] using h
  | cons c0 cs ih =>
    simp only [markLoaded]
    apply ih
    rw [entryIn_aset]
    by_cases hc : c0 = c <;> simp [hc, h]

theorem markLoaded_mem (m : List (Nat × ChunkEntry)) (cs : List Nat) (c : Nat)
    (h : c ∈ cs) : entryIn (markLoaded m cs).1 c = ChunkEntry.installed := by
  induction cs generalizing m with
  | nil => cases h
  | cons c0 cs ih =>
    rcases List.mem_cons.mp h with rfl | h2
    · simp only [markLoaded]
      apply markLoaded_preserves_installed
      simp [entryIn_aset]
    · simp only [markLoaded]
      exact ih (aset m c0 ChunkEntry.installed) h2

theorem pendingResolves_aset_not_mem (m : List (Nat × ChunkEntry)) (cs : List Nat)
    (c : Nat) (v : ChunkEntry) (h : c ∉ cs) :
    pendingResolves (aset m c v) cs = pendingResolves m cs := by
  unfold pendingResolves
  apply List.filterMap_congr
  intro a ha
  have hca : c ≠ a := fun he => h (he ▸ ha)
  rw [entryIn_aset, if_neg hca]

theorem markLoaded_resolves (m : List (Nat × ChunkEntry)) (cs : List Nat)
    (hnd : cs.Nodup) : (markLoaded m cs).2 = pendingResolves m cs := by
  induction cs generalizing m with
  | nil => simp [markLoaded, pendingResolves]
  | cons c0 cs ih =>
    have hnotin : c0 ∉ cs := (List.nodup_cons.mp hnd).1
    have hnd2 : cs.Nodup := (List.nodup_cons.mp hnd).2
    simp only [markLoaded]
    rw [ih (aset m c0 ChunkEntry.installed) hnd2,
      pendingResolves_aset_not_mem m cs c0 ChunkEntry.installed hnotin]
    cases he : entryIn m c0 <;> simp [pendingResolves, he]

theorem alookup_foldl_resolve (l : List Nat) (t : List (Nat × PromiseState)) (p : Nat)
    (h : p ∈ l ∨ alookup t p = some PromiseState.resolvedP) :
    alookup (l.foldl (fun ps q => aset ps q PromiseState.resolvedP) t) p =
      some PromiseState.resolvedP := by
  induction l generalizing t with
  | nil =>
    rcases h with h | h
    · cases h
    · simpa using h
  | cons q l ih =>
    rw [List.foldl_cons]
    rcases h with h | h
    · rcases List.mem_cons.mp h with rfl | h2
      · by_cases hql : p ∈ l
        · exact ih _ (Or.inl hql)
        · exact ih _ (Or.inr (by rw [alookup_aset, if_pos rfl]))
      · exact ih _ (Or.inl h2)
    · by_cases hq : q = p
      · exact ih _ (Or.inr (by rw [alookup_aset, if_pos hq]))
      · exact ih _ (Or.inr (by rw [alookup_aset, if_neg hq]; exact h))

/-- C5: contract of `webpackJsonpCallback`.  With distinct chunk ids and
distinct own keys of `moduleMap`: every own entry of `moduleMap` ends up in
the global module table, every id in `chunkIds` is flagged loaded, the
observable actions are (optional) runtime-injector run, parent notification,
then the pending resolves fired FIFO in `chunkIds` order, and every promise
of a previously-loading chunk in `chunkIds` is resolved. -/
theorem jsonp_callback_contract (s : JsonpRuntime) (chunkIds : List Nat)
    (moreModules : List (Nat × Nat)) (hasRuntime : Bool)
    (hndc : chunkIds.Nodup) (hndm : (moreModules.map Prod.fst).Nodup) :
    (∀ mf : Nat × Nat, mf ∈ moreModules →
        alookup (webpackJsonpCallback s chunkIds moreModules hasRuntime).modules mf.1 =
          some mf.2)
    ∧ (∀ c ∈ chunkIds,
        entryOf (webpackJsonpCallback s chunkIds moreModules hasRuntime) c =
          ChunkEntry.installed)
    ∧ (webpackJsonpCallback s chunkIds moreModules hasRuntime).events =
        s.events ++ (if hasRuntime then [REvent.runtimeRun] else [])
          ++ [REvent.parentNotified]
          ++ (pendingResolves s.installedChunks chunkIds).map REvent.resolveCalled
    ∧ (∀ p ∈ pendingResolves s.installedChunks chunkIds,
        alookup (webpackJsonpCallback s chunkIds moreModules hasRuntime).promises p =
          some PromiseState.resolvedP) := by
  refine ⟨?_, ?_, ?_, ?_⟩
  · intro mf hmf
    simp only [webpackJsonpCallback]
    have : (mf.1, mf.2) ∈ moreModules := by simpa using hmf
    exact alookup_foldl_aset moreModules s.modules mf.1 mf.2 hndm this
  · intro c hc
    simp only [webpackJsonpCallback, entryOf]
    exact markLoaded_mem s.installedChunks chunkIds c hc
  · simp only [webpackJsonpCallback]
    rw [markLoaded_resolves s.installedChunks chunkIds hndc]
  · intro p hp
    simp only [webpackJsonpCallback]
    rw [markLoaded_resolves s.installedChunks chunkIds hndc]
    exact alookup_foldl_resolve _ s.promises p (Or.inl hp)

/-- A concrete state with chunk 396 loading, used to witness the jsonp
callback and timeout theorems. -/
def loadingState : JsonpRuntime :=
  { installedChunks := [(404, ChunkEntry.installed), (396, ChunkEntry.loading 0)],
    modules := [], promises := [(0, PromiseState.pending)],
    timers := [(396, 120000)], nextId := 1, now := 120000,
    fetches := [396], events := [] }

theorem jsonp_callback_contract_witness :
    ([396] : List Nat).Nodup
    ∧ (([(2, 9)] : List (Nat × Nat)).map Prod.fst).Nodup
    ∧ ((∀ mf : Nat × Nat, mf ∈ ([(2, 9)] : List (Nat × Nat)) →
          alookup (webpackJsonpCallback loadingState [396] [(2, 9)] true).modules mf.1 =
            some mf.2)
      ∧ (∀ c ∈ ([396] : List Nat),
          entryOf (webpackJsonpCallback loadingState [396] [(2, 9)] true) c =
            ChunkEntry.installed)
      ∧ (webpackJsonpCallback loadingState [396] [(2, 9)] true).events =
          loadingState.events ++ (if true then [REvent.runtimeRun] else [])
            ++ [REvent.parentNotified]
            ++ (pendingResolves loadingState.installedChunks [396]).map REvent.resolveCalled
      ∧ (∀ p ∈ pendingResolves loadingState.installedChunks [396],
          alookup (webpackJsonpCallback loadingState [396] [(2, 9)] true).promises p =
            some PromiseState.resolvedP)) :=
  ⟨by decide, by decide,
    jsonp_callback_contract loadingState [396] [(2, 9)] true (by decide) (by decide)⟩

/-- C6: a scheduled timeout that fires (the timer exists and its 120000 ms
deadline has passed without a success or error event having cleared it)
rejects the chunk's pending promise with the structured error kind
`timeout` and clears the timer; and every fetch startup schedules its timer
at exactly `now + 120000` milliseconds. -/
theorem chunk_timeout_forces_failure (s : JsonpRuntime) (c p d : Nat)
    (hload : entryOf s c = ChunkEntry.loading p)
    (htimer : alookup s.timers c = some d) (hdue : d ≤ s.now) :
    alookup (timerFire s c).promises p = some (PromiseState.rejectedP "timeout")
    ∧ alookup (timerFire s c).timers c = none
    ∧ (∀ s0 : JsonpRuntime, ∀ ps : List Nat, entryOf s0 c = ChunkEntry.notLoaded →
        alookup (requireEnsureJ s0 c ps).1.timers c = some (s0.now + 120000)) := by
  refine ⟨?_, ?_, ?_⟩
  · have he : entryIn s.installedChunks c = ChunkEntry.loading p := hload
    simp [timerFire, onScriptComplete, entryOf, he, alookup_aset]
  · have he : entryIn s.installedChunks c = ChunkEntry.loading p := hload
    simp [timerFire, onScriptComplete, entryOf, he, alookup_aremove]
  · intro s0 ps h0
    simp [requireEnsureJ, h0, alookup_aset]

theorem chunk_timeout_forces_failure_witness :
    entryOf loadingState 396 = ChunkEntry.loading 0
    ∧ alookup loadingState.timers 396 = some 120000
    ∧ 120000 ≤ loadingState.now
    ∧ (alookup (timerFire loadingState 396).promises 0 =
          some (PromiseState.rejectedP "timeout")
      ∧ alookup (timerFire loadingState 396).timers 396 = none
      ∧ (∀ s0 : JsonpRuntime, ∀ ps : List Nat,
          entryOf s0 396 = ChunkEntry.notLoaded →
          alookup (requireEnsureJ s0 396 ps).1.timers 396 = some (s0.now + 120000))) :=
  ⟨by decide, by decide, by decide,
    chunk_timeout_forces_failure loadingState 396 0 120000 (by decide) (by decide) (by decide)⟩

/-! ## The bundle-loader wrapper module

Embedding of the wrapper emitted for `bundle-loader!./file.js`
(README lines 91-108):

    var cbs = [], data;
    module.exports = function(cb) { if(cbs) cbs.push(cb); else cb(data); }
    __webpack_require__.e(396).then(function(require) {
      data = __webpack_require__(2);
      var callbacks = cbs; cbs = null;
      for(var i = 0, l = callbacks.length; i < l; i++) callbacks[i](data);
    })

Callbacks are identified by numbers, module exports values by numbers, and
every callback invocation `cb(data)` is recorded in the `calls` trace. -/

structure BundleLoaderState : Type where
  cbs : Option (List Nat)
  data : Option Nat
  calls : List (Nat × Option Nat)
deriving DecidableEq, Repr

def blInit : BundleLoaderState := { cbs := some [], data := none, calls := [] }

/-- The exported registration function: `if(cbs) cbs.push(cb); else cb(data);` -/
def blRegister (s : BundleLoaderState) (cb : Nat) : BundleLoaderState :=
  match s.cbs with
  | some l => { s with cbs := some (l ++ [cb]) }
  | none => { s with calls := s.calls ++ [(cb, s.data)] }

/-- The `then` handler of the awaited chunk: store the inner module's exports
in `data`, null out `cbs`, and fire the buffered callbacks in order.  (The
promise resolves at most once, so this runs at most once, from a state where
`cbs` is still an array.) -/
def blResolve (s : BundleLoaderState) (v : Nat) : BundleLoaderState :=
  match s.cbs with
  | some l =>
    { cbs := none, data := some v,
      calls := s.calls ++ l.map (fun cb => (cb, some v)) }
  | none => { s with data := some v }

theorem blRegister_foldl (earlyCbs : List Nat) (s : BundleLoaderState) (q : List Nat)
    (h : s.cbs = some q) :
    earlyCbs.foldl blRegister s =
      { cbs := some (q ++ earlyCbs), data := s.data, calls := s.calls } := by
  induction earlyCbs generalizing s q with
  | nil =>
    simp only [List.foldl_nil]
    obtain ⟨c0, d0, l0⟩ := s
    simp_all
  | cons cb rest ih =>
    rw [List.foldl_cons]
    have hstep : blRegister s cb = { s with cbs := some (q ++ [cb]) } := by
      simp [blRegister, h]
    rw [hstep, ih { s with cbs := some (q ++ [cb]) } (q ++ [cb]) rfl]
    simp

/-- C7: bundle-loader callback ordering.  Every callback registered before
the awaited chunk resolves is buffered and fired in registration order with
the resolved exports value, and a callback registered after resolution is
still invoked, with the cached value. -/
theorem bundle_loader_callbacks (earlyCbs : List Nat) (v : Nat) (lateCb : Nat) :
    (blResolve (earlyCbs.foldl blRegister blInit) v).calls =
      earlyCbs.map (fun cb => (cb, some v))
    ∧ (blRegister (blResolve (earlyCbs.foldl blRegister blInit) v) lateCb).calls =
        earlyCbs.map (fun cb => (cb, some v)) ++ [(lateCb, some v)] := by
  have h1 : earlyCbs.foldl blRegister blInit =
      { cbs := some earlyCbs, data := none, calls := [] } := by
    simpa using blRegister_foldl earlyCbs blInit [] rfl
  have h2 : blResolve (earlyCbs.foldl blRegister blInit) v =
      { cbs := none, data := some v, calls := earlyCbs.map (fun cb => (cb, some v)) } := by
    rw [h1]; simp [blResolve]
  refine ⟨by rw [h2], ?_⟩
  rw [h2]
  simp [blRegister]

/-! ## LibManifestPlugin

Embedding of the manifest construction of `LibManifestPlugin.apply`
(src/lib/WebpackOptionsApply.js lines 560-655).  A module is described by
its optional library identity (`module.libIdent(...)`), its assigned id
(`chunkGraph.getModuleId`), its opaque `buildMeta`, the provided exports
reported by the module graph (an ordered list when known, or the dynamic
"unknown" answer), and whether it has an incoming `EntryDependency`. -/

inductive ProvidedExports : Type
  | exportList (l : List String)
  | unknownExports
deriving DecidableEq, Repr

structure ModuleInfo : Type where
  libIdent : Option String
  moduleId : Nat
  buildMeta : Nat
  providedExports : ProvidedExports
  isEntry : Bool
deriving DecidableEq, Repr

/-- `ManifestModuleData`: `exports` is the array of provided export names
when `Array.isArray(providedExports)`, and the explicit `undefined` marker
(`none`) otherwise. -/
structure ManifestModuleData : Type where
  id : Nat
  buildMeta : Nat
  exports : Option (List String)
deriving DecidableEq, Repr

def exportsField : ProvidedExports → Option (List String)
  | ProvidedExports.exportList l => some l
  | ProvidedExports.unknownExports => none

/-- One step of the `Array.from` mapper: `entryOnly` skips modules without an
incoming `EntryDependency`; a module without a library identity yields
nothing; otherwise the `{ id, buildMeta, exports }` record keyed by the
identity. -/
def manifestEntryFor (entryOnly : Bool) (m : ModuleInfo) :
    Option (String × ManifestModuleData) :=
  if entryOnly = true ∧ m.isEntry = false then none
  else
    match m.libIdent with
    | some ident =>
      some (ident,
        { id := m.moduleId, buildMeta := m.buildMeta,
          exports := exportsField m.providedExports })
    | none => none

/-- The `content` object: mapped entries, `.filter(Boolean)`, then `.reduce`
into an object keyed by `ident`. -/
def manifestContent (entryOnly : Bool) (mods : List ModuleInfo) :
    List (String × ManifestModuleData) :=
  (mods.filterMap (manifestEntryFor entryOnly)).foldl
    (fun obj it => aset obj it.1 it.2) []

/-- C3: every module included in the manifest is keyed by its library
identity and carries the `{ id, buildMeta, exports }` shape, with `exports`
the ordered provided-export list exactly when the exports are known, and the
explicit unknown marker (`undefined`) exactly when they are not. -/
theorem manifest_entry_shape (entryOnly : Bool) (mods : List ModuleInfo)
    (m : ModuleInfo) (ident : String)
    (hm : m ∈ mods) (hid : m.libIdent = some ident)
    (hinc : entryOnly = true → m.isEntry = true)
    (hnd : ((mods.filterMap (manifestEntryFor entryOnly)).map Prod.fst).Nodup) :
    alookup (manifestContent entryOnly mods) ident =
      some { id := m.moduleId, buildMeta := m.buildMeta,
             exports := exportsField m.providedExports }
    ∧ (∀ l : List String, exportsField m.providedExports = some l ↔
        m.providedExports = ProvidedExports.exportList l)
    ∧ (exportsField m.providedExports = none ↔
        m.providedExports = ProvidedExports.unknownExports) := by
  refine ⟨?_, ?_, ?_⟩
  · have hentry : manifestEntryFor entryOnly m =
        some (ident,
          { id := m.moduleId, buildMeta := m.buildMeta,
            exports := exportsField m.providedExports }) := by
      unfold manifestEntryFor
      rw [hid]
      by_cases heo : entryOnly = true
      · simp [heo, hinc heo]
      · simp [heo]
    have hmem :
        (ident,
          ({ id := m.moduleId, buildMeta := m.buildMeta,
             exports := exportsField m.providedExports } : ManifestModuleData)) ∈
          mods.filterMap (manifestEntryFor entryOnly) :=
      List.mem_filterMap.mpr ⟨m, hm, hentry⟩
    exact alookup_foldl_aset _ [] _ _ hnd hmem
  · intro l
    cases m.providedExports <;> simp [exportsField]
  · cases m.providedExports <;> simp [exportsField]

theorem manifest_entry_shape_witness :
    (⟨some "./a.js", 3, 0, ProvidedExports.exportList ["x", "y"], true⟩ : ModuleInfo) ∈
      [(⟨some "./a.js", 3, 0, ProvidedExports.exportList ["x", "y"], true⟩ : ModuleInfo)]
    ∧ (⟨some "./a.js", 3, 0, ProvidedExports.exportList ["x", "y"], true⟩ :
        ModuleInfo).libIdent = some "./a.js"
    ∧ (alookup
        (manifestContent true
          [⟨some "./a.js", 3, 0, ProvidedExports.exportList ["x", "y"], true⟩]) "./a.js" =
        some { id := 3, buildMeta := 0, exports := some ["x", "y"] }
      ∧ (∀ l : List String,
          exportsField (ProvidedExports.exportList ["x", "y"]) = some l ↔
            ProvidedExports.exportList ["x", "y"] = ProvidedExports.exportList l)
      ∧ (exportsField (ProvidedExports.exportList ["x", "y"]) = none ↔
          ProvidedExports.exportList ["x", "y"] = ProvidedExports.unknownExports)) :=
  ⟨by decide, by decide,
    manifest_entry_shape true
      [⟨some "./a.js", 3, 0, ProvidedExports.exportList ["x", "y"], true⟩]
      ⟨some "./a.js", 3, 0, ProvidedExports.exportList ["x", "y"], true⟩ "./a.js"
      (by decide) (by decide) (fun _ => by decide) (by decide)⟩

/-- A chunk as seen by `LibManifestPlugin.apply`: the target path computed
for it and whether `chunk.isOnlyInitial()` holds. -/
structure ChunkInfo : Type where
  targetPath : String
  isOnlyInitial : Bool
  modules : List ModuleInfo
deriving DecidableEq, Repr

/-- The files written by the `emit` hook: each chunk is skipped entirely
(`if (!chunk.isOnlyInitial()) { callback(); return; }`) unless it is only
initial; otherwise its manifest is written at its target path. -/
def libManifestEmit (entryOnly : Bool) (chunks : List ChunkInfo) :
    List (String × List (String × ManifestModuleData)) :=
  chunks.filterMap (fun ch =>
    if ch.isOnlyInitial = true then
      some (ch.targetPath, manifestContent entryOnly ch.modules)
    else none)

/-- C10: no manifest file is ever written for a chunk that is not exclusively
initial, regardless of the `entryOnly` option. -/
theorem manifest_only_initial_chunks (entryOnly : Bool) (chunks : List ChunkInfo)
    (ch : ChunkInfo) (hch : ch ∈ chunks) (hni : ch.isOnlyInitial = false)
    (hpaths : (chunks.map ChunkInfo.targetPath).Nodup) :
    ch.targetPath ∉ (libManifestEmit entryOnly chunks).map Prod.fst := by
  intro hmem
  rcases List.mem_map.mp hmem with ⟨pair, hpair, hfst⟩
  rcases List.mem_filterMap.mp hpair with ⟨ch2, hch2, hsome⟩
  by_cases h2 : ch2.isOnlyInitial = true
  · rw [if_pos h2] at hsome
    injection hsome with hpair2
    have hpath : ch2.targetPath = ch.targetPath := by
      rw [← hfst, ← hpair2]
    have heq : ch2 = ch :=
      List.inj_on_of_nodup_map hpaths hch2 hch hpath
    rw [heq] at h2
    rw [hni] at h2
    cases h2
  · rw [if_neg h2] at hsome
    cases hsome

theorem manifest_only_initial_chunks_witness :
    (⟨"b.json", false, []⟩ : ChunkInfo) ∈
      [(⟨"a.json", true, []⟩ : ChunkInfo), ⟨"b.json", false, []⟩]
    ∧ (⟨"b.json", false, []⟩ : ChunkInfo).isOnlyInitial = false
    ∧ "b.json" ∉
        (libManifestEmit true [(⟨"a.json", true, []⟩ : ChunkInfo), ⟨"b.json", false, []⟩]).map
          Prod.fst :=
  ⟨by decide, by decide,
    manifest_only_initial_chunks true [⟨"a.json", true, []⟩, ⟨"b.json", false, []⟩]
      ⟨"b.json", false, []⟩ (by decide) (by decide) (by decide)⟩

/-! ## Id assignment strategy selection

Embedding of the `optimization.moduleIds` / `optimization.chunkIds` switches
of `WebpackOptionsApply.process` (src/lib/WebpackOptionsApply.js lines
387-445).  A falsy option (`false`/`undefined`, modelled `none`) skips the
switch entirely; a set value selects plugins or throws. -/

inductive IdPlugin : Type
  | naturalModuleIds
  | namedModuleIds
  | hashedModuleIds
  | deterministicModuleIds
  | occurrenceModuleIds (prioritiseInitial : Bool)
  | naturalChunkIds
  | namedChunkIds
  | deterministicChunkIds
  | occurrenceChunkIds (prioritiseInitial : Bool)
deriving DecidableEq, Repr

inductive AppliedPlugin : Type
  | warnDeprecated (optionPath value suggestion : String)
  | idAssign (p : IdPlugin)
deriving DecidableEq, Repr

def applyModuleIds : Option String → Except String (List AppliedPlugin)
  | none => Except.ok []
  | some s =>
    if s = "natural" then Except.ok [AppliedPlugin.idAssign IdPlugin.naturalModuleIds]
    else if s = "named" then Except.ok [AppliedPlugin.idAssign IdPlugin.namedModuleIds]
    else if s = "hashed" then
      Except.ok
        [AppliedPlugin.warnDeprecated "optimization.moduleIds" "hashed" "deterministic",
          AppliedPlugin.idAssign IdPlugin.hashedModuleIds]
    else if s = "deterministic" then
      Except.ok [AppliedPlugin.idAssign IdPlugin.deterministicModuleIds]
    else if s = "size" then
      Except.ok [AppliedPlugin.idAssign (IdPlugin.occurrenceModuleIds true)]
    else Except.error ("webpack bug: moduleIds: " ++ s ++ " is not implemented")

def applyChunkIds : Option String → Except String (List AppliedPlugin)
  | none => Except.ok []
  | some s =>
    if s = "natural" then Except.ok [AppliedPlugin.idAssign IdPlugin.naturalChunkIds]
    else if s = "named" then Except.ok [AppliedPlugin.idAssign IdPlugin.namedChunkIds]
    else if s = "deterministic" then
      Except.ok [AppliedPlugin.idAssign IdPlugin.deterministicChunkIds]
    else if s = "size" then
      Except.ok [AppliedPlugin.idAssign (IdPlugin.occurrenceChunkIds true)]
    else if s = "total-size" then
      Except.ok [AppliedPlugin.idAssign (IdPlugin.occurrenceChunkIds false)]
    else Except.error ("webpack bug: chunkIds: " ++ s ++ " is not implemented")

def countIdAssign (l : List AppliedPlugin) : Nat :=
  l.countP (fun a =>
    match a with
    | AppliedPlugin.idAssign _ => true
    | _ => false)

def recognizedModuleIds : List String :=
  ["natural", "named", "hashed", "deterministic", "size"]

def recognizedChunkIds : List String :=
  ["natural", "named", "deterministic", "size", "total-size"]

/-- The number of id-assignment plugins the option processing applied, or
`none` when it threw. -/
def idAssignOutcome (r : Except String (List AppliedPlugin)) : Option Nat :=
  match r with
  | Except.ok l => some (countIdAssign l)
  | Except.error _ => none

/-- C9: for every recognized `moduleIds`/`chunkIds` value exactly one
id-assignment plugin is applied; for every other set value option processing
throws instead of silently applying a strategy; and `hashed` additionally
emits a deprecation warning pointing at `deterministic`. -/
theorem id_strategy_selection (s : String) :
    idAssignOutcome (applyModuleIds (some s)) =
      (if s ∈ recognizedModuleIds then some 1 else none)
    ∧ idAssignOutcome (applyChunkIds (some s)) =
      (if s ∈ recognizedChunkIds then some 1 else none)
    ∧ applyModuleIds (some "hashed") =
      Except.ok
        [AppliedPlugin.warnDeprecated "optimization.moduleIds" "hashed" "deterministic",
          AppliedPlugin.idAssign IdPlugin.hashedModuleIds] := by
  refine ⟨?_, ?_, by simp [applyModuleIds]⟩
  · by_cases h1 : s = "natural"
    · simp [h1, applyModuleIds, recognizedModuleIds, idAssignOutcome, countIdAssign]
    · by_cases h2 : s = "named"
      · simp [h2, applyModuleIds, recognizedModuleIds, idAssignOutcome, countIdAssign]
      · by_cases h3 : s = "hashed"
        · simp [h3, applyModuleIds, recognizedModuleIds, idAssignOutcome, countIdAssign]
        · by_cases h4 : s = "deterministic"
          · simp [h4, applyModuleIds, recognizedModuleIds, idAssignOutcome, countIdAssign]
          · by_cases h5 : s = "size"
            · simp [h5, applyModuleIds, recognizedModuleIds, idAssignOutcome, countIdAssign]
            · simp [applyModuleIds, recognizedModuleIds, idAssignOutcome,
                h1, h2, h3, h4, h5]
  · by_cases h1 : s = "natural"
    · simp [h1, applyChunkIds, recognizedChunkIds, idAssignOutcome, countIdAssign]
    · by_cases h2 : s = "named"
      · simp [h2, applyChunkIds, recognizedChunkIds, idAssignOutcome, countIdAssign]
      · by_cases h3 : s = "deterministic"
        · simp [h3, applyChunkIds, recognizedChunkIds, idAssignOutcome, countIdAssign]
        · by_cases h4 : s = "size"
          · simp [h4, applyChunkIds, recognizedChunkIds, idAssignOutcome, countIdAssign]
          · by_cases h5 : s = "total-size"
            · simp [h5, applyChunkIds, recognizedChunkIds, idAssignOutcome, countIdAssign]
            · simp [applyChunkIds, recognizedChunkIds, idAssignOutcome,
                h1, h2, h3, h4, h5]

/-! ## Module decorator runtime modules

Embedding of the runtime behaviour of the code generated by
`HarmonyModuleDecoratorRuntimeModule.generate` and
`NodeModuleDecoratorRuntimeModule.generate`, and of the variant selection in
the `module` expression hook of `NodeStuffPlugin`
(src/unnamed/part_000 lines 643-655 and 669-736).

A decorated module's `module.l` / `module.i` fields back the `loaded` and
`id` getters.  An `Object.defineProperty` with only a getter produces a
read-only accessor (`settable = false`); the harmony variant additionally
defines an own `exports` property on the `Object.create` wrapper, which is
the marker distinguishing the synthetic namespace object. -/

structure ModuleRecord : Type where
  i : Int
  l : Bool

inductive JsVal : Type
  | num (n : Int)
  | bool (b : Bool)
deriving DecidableEq, Repr

structure PropertyDef : Type where
  name : String
  enumerable : Bool
  getF : Option (ModuleRecord → JsVal)
  settable : Bool

structure DecoratedModule : Type where
  props : List PropertyDef
  isPrototypeWrapper : Bool
  pathsCleared : Bool

/-- `__webpack_require__.hmd`: `module = Object.create(module)` plus
read-only `loaded`/`id` getters and the own `exports` marker property. -/
def harmonyModuleDecorator : DecoratedModule :=
  { props :=
      [{ name := "loaded", enumerable := true,
         getF := some (fun m => JsVal.bool m.l), settable := false },
       { name := "id", enumerable := true,
         getF := some (fun m => JsVal.num m.i), settable := false },
       { name := "exports", enumerable := true, getF := none, settable := false }],
    isPrototypeWrapper := true, pathsCleared := false }

/-- `__webpack_require__.nmd`: `module.paths = []` plus read-only
`loaded`/`id` getters; no `exports` marker. -/
def nodeModuleDecorator : DecoratedModule :=
  { props :=
      [{ name := "loaded", enumerable := true,
         getF := some (fun m => JsVal.bool m.l), settable := false },
       { name := "id", enumerable := true,
         getF := some (fun m => JsVal.num m.i), settable := false }],
    isPrototypeWrapper := false, pathsCleared := true }

/-- Variant selection in the `module` expression hook of `NodeStuffPlugin`:
`isHarmony = module.buildMeta && module.buildMeta.exportsType`. -/
def moduleDecoratorFor (exportsType : Option String) : DecoratedModule :=
  if exportsType.isSome = true then harmonyModuleDecorator else nodeModuleDecorator

def findProp (d : DecoratedModule) (propName : String) : Option PropertyDef :=
  d.props.find? (fun p => p.name == propName)

/-- C4: whichever variant the build-metadata flag selects, the decorated
module exposes `loaded` and `id` as enumerable, read-only getters over the
module's load state (`module.l`) and id (`module.i`); the `exports` marker
property is present exactly for the interop (harmony) variant; and the
harmony variant is selected exactly when the build-metadata `exportsType`
flag is set. -/
theorem module_decorator_variants (exportsType : Option String) :
    (∃ g : ModuleRecord → JsVal,
        findProp (moduleDecoratorFor exportsType) "loaded" =
          some { name := "loaded", enumerable := true, getF := some g, settable := false }
        ∧ ∀ m : ModuleRecord, g m = JsVal.bool m.l)
    ∧ (∃ g : ModuleRecord → JsVal,
        findProp (moduleDecoratorFor exportsType) "id" =
          some { name := "id", enumerable := true, getF := some g, settable := false }
        ∧ ∀ m : ModuleRecord, g m = JsVal.num m.i)
    ∧ ((findProp (moduleDecoratorFor exportsType) "exports").isSome = true ↔
        exportsType.isSome = true)
    ∧ ((moduleDecoratorFor exportsType).isPrototypeWrapper = true ↔
        exportsType.isSome = true) := by
  cases exportsType with
  | none =>
    refine ⟨⟨fun m => JsVal.bool m.l, ?_, fun m => rfl⟩,
      ⟨fun m => JsVal.num m.i, ?_, fun m => rfl⟩, ?_, ?_⟩ <;>
      simp [moduleDecoratorFor, nodeModuleDecorator, findProp, List.find?]
  | some t =>
    refine ⟨⟨fun m => JsVal.bool m.l, ?_, fun m => rfl⟩,
      ⟨fun m => JsVal.num m.i, ?_, fun m => rfl⟩, ?_, ?_⟩ <;>
      simp [moduleDecoratorFor, harmonyModuleDecorator, findProp, List.find?]

/-! ## Eval source-map injection

Embedding of `EvalSourceMapDevToolModuleTemplatePlugin.apply`
(src/unnamed/part_000 lines 312-430).  The footer is
`this.sourceMapComment.replace(/\x5burl\x5d/g, dataUri) + trailer` where the
data URI is `data:application/json;charset=utf-8;base64,` followed by the
base64 encoding of the UTF-8 bytes of the JSON map, and the trailer is
`"\n//# sourceURL=webpack-internal:///" + moduleId + "\n"`. -/

def base64Table : List Char :=
  "ABCDEFGHIJKLMNOPQRSTUVWXYZabcdefghijklmnopqrstuvwxyz0123456789+/".data

def b64 (n : Nat) : Char := base64Table.getD n 'A'

/-- Standard base64 of a byte list (bytes as `Nat` below 256). -/
def base64Encode : List Nat → List Char
  | [] => []
  | [a] => [b64 (a / 4), b64 (a % 4 * 16), '=', '=']
  | [a, b] => [b64 (a / 4), b64 (a % 4 * 16 + b / 16), b64 (b % 16 * 4), '=']
  | a :: b :: c :: rest =>
    b64 (a / 4) :: b64 (a % 4 * 16 + b / 16) :: b64 (b % 16 * 4 + c / 64) ::
      b64 (c % 64) :: base64Encode rest

/-- UTF-8 bytes of one code point. -/
def utf8EncodeChar (n : Nat) : List Nat :=
  if n < 128 then [n]
  else if n < 2048 then [192 + n / 64, 128 + n % 64]
  else if n < 65536 then [224 + n / 4096, 128 + n / 64 % 64, 128 + n % 64]
  else [240 + n / 262144, 128 + n / 4096 % 64, 128 + n / 64 % 64, 128 + n % 64]

def utf8Encode (s : List Char) : List Nat :=
  (s.map (fun c => utf8EncodeChar c.toNat)).flatten

def dataUriPrefix : String := "data:application/json;charset=utf-8;base64,"

/-- The replacement text for the `url` placeholder:
`data:application/json;charset=utf-8;base64,` ++ base64 of the JSON map. -/
def dataUri (mapJson : String) : String :=
  dataUriPrefix ++ String.mk (base64Encode (utf8Encode mapJson.data))

/-- The five placeholder characters: `[`, `u`, `r`, `l`, `]`. -/
def urlPattern : List Char := ['[', 'u', 'r', 'l', ']']

/-- Global regex replacement of the `url` placeholder: scan left to right,
replacing each non-overlapping occurrence with `r`. -/
def substUrl (r : List Char) : List Char → List Char
  | [] => []
  | c :: cs =>
    if (c :: cs).take 5 = urlPattern then r ++ substUrl r ((c :: cs).drop 5)
    else c :: substUrl r cs
termination_by l => l.length
decreasing_by
  · simp only [List.length_drop, List.length_cons]
    omega
  · simp

/-- Whether the placeholder occurs anywhere in the character list. -/
def hasUrl : List Char → Bool
  | [] => false
  | c :: cs => decide ((c :: cs).take 5 = urlPattern) || hasUrl cs

def sourceURLTrailer (moduleId : String) : String :=
  "\n//# sourceURL=webpack-internal:///" ++ moduleId ++ "\n"

/-- The emitted footer: the configured source-map comment with every `url`
placeholder substituted by the data URI, followed by the `sourceURL`
trailer. -/
def evalFooter (comment mapJson moduleId : String) : String :=
  String.mk (substUrl (dataUri mapJson).data comment.data) ++ sourceURLTrailer moduleId

theorem b64_mem (n : Nat) : b64 n ∈ base64Table := by
  unfold b64
  by_cases h : n < base64Table.length
  · rw [List.getD_eq_getElem base64Table 'A' h]
    exact List.getElem_mem h
  · rw [List.getD_eq_default base64Table 'A' (by omega)]
    decide

theorem base64Encode_mem (bytes : List Nat) (ch : Char)
    (h : ch ∈ base64Encode bytes) : ch ∈ base64Table ∨ ch = '=' := by
  induction bytes using base64Encode.induct with
  | case1 => cases h
  | case2 a =>
    simp only [base64Encode, List.mem_cons, List.not_mem_nil, or_false] at h
    rcases h with h | h | h | h
    · exact Or.inl (h ▸ b64_mem _)
    · exact Or.inl (h ▸ b64_mem _)
    · exact Or.inr h
    · exact Or.inr h
  | case3 a b =>
    simp only [base64Encode, List.mem_cons, List.not_mem_nil, or_false] at h
    rcases h with h | h | h | h
    · exact Or.inl (h ▸ b64_mem _)
    · exact Or.inl (h ▸ b64_mem _)
    · exact Or.inl (h ▸ b64_mem _)
    · exact Or.inr h
  | case4 a b c rest ih =>
    simp only [base64Encode, List.mem_cons] at h
    rcases h with h | h | h | h | h
    · exact Or.inl (h ▸ b64_mem _)
    · exact Or.inl (h ▸ b64_mem _)
    · exact Or.inl (h ▸ b64_mem _)
    · exact Or.inl (h ▸ b64_mem _)
    · exact ih h

theorem no_bracket_dataUri (mapJson : String) : '[' ∉ (dataUri mapJson).data := by
  intro hmem
  have hsplit : (dataUri mapJson).data =
      dataUriPrefix.data ++ base64Encode (utf8Encode mapJson.data) := by
    simp [dataUri, String.data_append]
  rw [hsplit] at hmem
  rcases List.mem_append.mp hmem with h | h
  · revert h
    decide
  · rcases base64Encode_mem _ _ h with h2 | h2
    · revert h2
      decide
    · cases h2

theorem substUrl_cons_pos (r : List Char) (c : Char) (cs : List Char)
    (h : (c :: cs).take 5 = urlPattern) :
    substUrl r (c :: cs) = r ++ substUrl r ((c :: cs).drop 5) := by
  rw [substUrl, if_pos h]

theorem substUrl_cons_neg (r : List Char) (c : Char) (cs : List Char)
    (h : ¬ (c :: cs).take 5 = urlPattern) :
    substUrl r (c :: cs) = c :: substUrl r cs := by
  rw [substUrl, if_neg h]

theorem take5_ne_of_head {c : Char} (cs : List Char) (h : c ≠ '[') :
    ¬ (c :: cs).take 5 = urlPattern := by
  intro he
  rw [List.take_succ_cons] at he
  exact h (List.cons.injEq .. ▸ he).1

theorem hasUrl_of_no_bracket (l : List Char) (h : '[' ∉ l) : hasUrl l = false := by
  induction l with
  | nil => rfl
  | cons c cs ih =>
    have hc : c ≠ '[' := fun he => h (by simp [he])
    have h2 : '[' ∉ cs := fun he => h (List.mem_cons_of_mem _ he)
    simp only [hasUrl, ih h2]
    rw [decide_eq_false (take5_ne_of_head cs hc)]
    simp

theorem hasUrl_append_of_no_bracket (r x : List Char) (h : '[' ∉ r) :
    hasUrl (r ++ x) = hasUrl x := by
  induction r with
  | nil => rfl
  | cons a r ih =>
    have ha : a ≠ '[' := fun he => h (by simp [he])
    have h2 : '[' ∉ r := fun he => h (List.mem_cons_of_mem _ he)
    rw [List.cons_append]
    simp only [hasUrl, ih h2]
    rw [decide_eq_false (take5_ne_of_head (r ++ x) ha)]
    simp

/-- Substitution never creates a list starting with a forbidden block: if the
input does not start with `p` then the output does not either, provided the
replacement starts with a character not occurring in `p`. -/
theorem substUrl_take_ne (r : List Char) (a : Char) (rt : List Char)
    (hr : r = a :: rt) :
    ∀ (n : Nat) (cs p : List Char), cs.length ≤ n → p ≠ [] → a ∉ p →
      cs.take p.length ≠ p → (substUrl r cs).take p.length ≠ p := by
  intro n
  induction n with
  | zero =>
    intro cs p hlen hp hap hne
    have : cs = [] := List.length_eq_zero.mp (by omega)
    subst this
    simpa [substUrl] using hne
  | succ n ih =>
    intro cs p hlen hp hap hne
    match cs with
    | [] => simpa [substUrl] using hne
    | c :: cs2 =>
      match p with
      | [] => exact absurd rfl hp
      | q :: pt =>
        by_cases hcond : (c :: cs2).take 5 = urlPattern
        · rw [substUrl_cons_pos r c cs2 hcond, hr, List.cons_append]
          simp only [List.length_cons, List.take_succ_cons]
          intro heq
          have : a = q := (List.cons.injEq .. ▸ heq).1
          exact hap (by simp [← this])
        · rw [substUrl_cons_neg r c cs2 hcond]
          simp only [List.length_cons, List.take_succ_cons]
          intro heq
          have hcq : c = q := (List.cons.injEq .. ▸ heq).1
          have htail : (substUrl r cs2).take pt.length = pt :=
            (List.cons.injEq .. ▸ heq).2
          simp only [List.length_cons, List.take_succ_cons] at hne
          have hne2 : cs2.take pt.length ≠ pt := by
            intro h2
            exact hne (by rw [hcq, h2])
          by_cases hpt : pt = []
          · subst hpt
            exact hne2 (by simp)
          · have hapt : a ∉ pt := fun hm => hap (List.mem_cons_of_mem _ hm)
            have hlen2 : cs2.length ≤ n := by
              simp only [List.length_cons] at hlen
              omega
            exact ih cs2 pt hlen2 hpt hapt hne2 htail

/-- Core lemma: substituting a replacement that starts with a character
other than `u`, `r`, `l`, `]` and contains no `[` leaves no occurrence of
the placeholder in the output. -/
theorem hasUrl_substUrl (r : List Char) (a : Char) (rt : List Char)
    (hr : r = a :: rt) (hbr : '[' ∉ r)
    (hau : a ≠ 'u') (har : a ≠ 'r') (hal : a ≠ 'l') (hab : a ≠ ']') :
    ∀ (n : Nat) (cs : List Char), cs.length ≤ n → hasUrl (substUrl r cs) = false := by
  intro n
  induction n with
  | zero =>
    intro cs hlen
    have : cs = [] := List.length_eq_zero.mp (by omega)
    subst this
    simp [substUrl, hasUrl]
  | succ n ih =>
    intro cs hlen
    match cs with
    | [] => simp [substUrl, hasUrl]
    | c :: cs2 =>
      by_cases hcond : (c :: cs2).take 5 = urlPattern
      · rw [substUrl_cons_pos r c cs2 hcond,
          hasUrl_append_of_no_bracket r _ hbr]
        refine ih _ ?_
        simp only [List.length_drop, List.length_cons]
        simp only [List.length_cons] at hlen
        omega
      · rw [substUrl_cons_neg r c cs2 hcond]
        have htail : hasUrl (substUrl r cs2) = false := by
          refine ih cs2 ?_
          simp only [List.length_cons] at hlen
          omega
        simp only [hasUrl, htail, Bool.or_false, decide_eq_false_iff_not]
        intro heq
        rw [List.take_succ_cons] at heq
        have hc : c = '[' := (List.cons.injEq .. ▸ heq).1
        have hrest : (substUrl r cs2).take 4 = ['u', 'r', 'l', ']'] :=
          (List.cons.injEq .. ▸ heq).2
        have hne4 : cs2.take 4 ≠ ['u', 'r', 'l', ']'] := by
          intro h4
          apply hcond
          rw [List.take_succ_cons, hc, h4]
          rfl
        have hap : a ∉ (['u', 'r', 'l', ']'] : List Char) := by
          simp [hau, har, hal, hab]
        exact substUrl_take_ne r a rt hr cs2.length cs2 ['u', 'r', 'l', ']']
          le_rfl (by simp) hap hne4 hrest

/-- Appending a placeholder-free tail whose first character cannot continue
a placeholder started in the front part introduces no occurrence. -/
theorem hasUrl_append_boundary (x t : List Char) (hx : hasUrl x = false)
    (ht : hasUrl t = false)
    (hh : ∀ q : Char, t.head? = some q → q ≠ 'u' ∧ q ≠ 'r' ∧ q ≠ 'l' ∧ q ≠ ']') :
    hasUrl (x ++ t) = false := by
  induction x with
  | nil => simpa using ht
  | cons c x2 ih =>
    simp only [hasUrl, Bool.or_eq_false_iff, decide_eq_false_iff_not] at hx
    obtain ⟨hx1, hx2⟩ := hx
    rw [List.cons_append]
    simp only [hasUrl, Bool.or_eq_false_iff, decide_eq_false_iff_not]
    refine ⟨?_, ih hx2⟩
    intro heq
    rw [List.take_succ_cons] at heq
    by_cases hlen : 4 ≤ x2.length
    · apply hx1
      rw [List.take_succ_cons]
      rw [List.take_append_eq_append_take, Nat.sub_eq_zero_of_le hlen,
        List.take_zero, List.append_nil] at heq
      exact heq
    · push_neg at hlen
      have hx2take : x2.take 4 = x2 := List.take_of_length_le (by omega)
      rw [List.take_append_eq_append_take, hx2take] at heq
      have hdrop : t.take (4 - x2.length) = urlPattern.drop (x2.length + 1) := by
        have h2 := congrArg (List.drop (x2.length + 1)) heq
        rw [← List.cons_append] at h2
        have hl : x2.length + 1 = (c :: x2).length := by simp
        rw [hl, List.drop_left] at h2
        rw [h2, ← hl]
      match t with
      | [] =>
        have hlen2 := congrArg List.length hdrop
        simp [urlPattern] at hlen2
        omega
      | q :: t2 =>
        obtain ⟨k2, hk2⟩ : ∃ k2, 4 - x2.length = k2 + 1 := ⟨3 - x2.length, by omega⟩
        rw [hk2, List.take_succ_cons] at hdrop
        have hq := congrArg List.head? hdrop
        simp only [List.head?_cons] at hq
        obtain ⟨hb1, hb2, hb3, hb4⟩ := hh q rfl
        have hm : x2.length = 0 ∨ x2.length = 1 ∨ x2.length = 2 ∨ x2.length = 3 := by
          omega
        rcases hm with h | h | h | h <;> rw [h] at hq <;>
          simp [urlPattern] at hq
        · exact hb1 hq
        · exact hb2 hq
        · exact hb3 hq
        · exact hb4 hq

/-- Modelled from the spec: the driver `ModuleFilenameHelpers.replaceDuplicates`
is not under src (only its caller and its marker callback are).  Per the spec,
`sources` entries are "de-duplicated by appending marker characters to
otherwise-identical filenames".  The marker callback is in src
(src/unnamed/part_000 lines 391-397): for occurrence index `n` it appends `n`
asterisks.  The driver is modelled as: a filename occurring more than once is
passed to the callback with its 0-based occurrence index among equal
entries; unique filenames are kept unchanged. -/
def appendStars (filename : String) (n : Nat) : String :=
  filename ++ String.mk (List.replicate n '*')

def dedupEntry (l : List String) (i : Nat) : String :=
  if 1 < l.count (l.getD i "") then
    appendStars (l.getD i "") ((l.take i).count (l.getD i ""))
  else l.getD i ""

def replaceDuplicates (l : List String) : List String :=
  (List.range l.length).map (dedupEntry l)

theorem replaceDuplicates_getD (l : List String) (i : Nat) (hi : i < l.length) :
    (replaceDuplicates l).getD i "" = dedupEntry l i := by
  unfold replaceDuplicates
  rw [List.getD_eq_getElem?_getD, List.getElem?_map, List.getElem?_range hi]
  rfl

theorem appendStars_length (s : String) (n : Nat) :
    (appendStars s n).length = s.length + n := by
  simp [appendStars, String.length_append, String.length_mk]

theorem count_take_lt (l : List String) (i j : Nat) (hi : i < l.length)
    (hij : i < j) (item : String) (hitem : l.get ⟨i, hi⟩ = item) :
    (l.take i).count item < (l.take j).count item := by
  have h1 : l.take j = l.take (i + 1) ++ (l.drop (i + 1)).take (j - (i + 1)) := by
    rw [← List.take_add]
    congr 1
    omega
  have h2 : l.take (i + 1) = l.take i ++ [item] := by
    rw [List.take_succ, List.getElem?_eq_getElem hi]
    simp [← hitem]
  rw [h1, List.count_append, h2, List.count_append]
  have h3 : List.count item [item] = 1 := by simp
  omega

theorem count_ge_two (l : List String) (i j : Nat) (hi : i < l.length)
    (hj : j < l.length) (hij : i < j) (item : String)
    (hitemi : l.get ⟨i, hi⟩ = item) (hitemj : l.get ⟨j, hj⟩ = item) :
    1 < l.count item := by
  have hsplit : l.count item = (l.take j).count item + (l.drop j).count item := by
    conv_lhs => rw [← List.take_append_drop j l]
    rw [List.count_append]
  have h1 : 0 < (l.take j).count item :=
    Nat.lt_of_le_of_lt (Nat.zero_le _) (count_take_lt l i j hi hij item hitemi)
  have h2 : 0 < (l.drop j).count item := by
    rw [List.drop_eq_getElem_cons hj]
    have hgj : l[j] = item := by simpa using hitemj
    rw [hgj, List.count_cons_self]
    omega
  omega

theorem replaceDuplicates_ne_of_lt (l : List String) (i j : Nat)
    (hi : i < l.length) (hj : j < l.length) (hij : i < j)
    (heq : l.get ⟨i, hi⟩ = l.get ⟨j, hj⟩) :
    (replaceDuplicates l).getD i "" ≠ (replaceDuplicates l).getD j "" := by
  rw [replaceDuplicates_getD l i hi, replaceDuplicates_getD l j hj]
  have hgi : l.getD i "" = l.get ⟨j, hj⟩ := by
    rw [List.getD_eq_getElem l "" hi]
    exact heq
  have hgj : l.getD j "" = l.get ⟨j, hj⟩ := by
    rw [List.getD_eq_getElem l "" hj]
    simp
  have hcount : 1 < l.count (l.get ⟨j, hj⟩) :=
    count_ge_two l i j hi hj hij (l.get ⟨j, hj⟩) heq rfl
  unfold dedupEntry
  rw [hgi, hgj, if_pos hcount, if_pos hcount]
  intro habs
  have hlen := congrArg String.length habs
  rw [appendStars_length, appendStars_length] at hlen
  have hlt := count_take_lt l i j hi hij (l.get ⟨j, hj⟩) heq
  omega

theorem replaceDuplicates_ne (l : List String) (i j : Nat)
    (hi : i < l.length) (hj : j < l.length) (hij : i ≠ j)
    (heq : l.get ⟨i, hi⟩ = l.get ⟨j, hj⟩) :
    (replaceDuplicates l).getD i "" ≠ (replaceDuplicates l).getD j "" := by
  rcases Nat.lt_or_ge i j with h | h
  · exact replaceDuplicates_ne_of_lt l i j hi hj h heq
  · have hj2 : j < i := by omega
    exact (replaceDuplicates_ne_of_lt l j i hj hi hj2 heq.symm).symm

theorem no_bracket_trailer (moduleId : String) (hmod : '[' ∉ moduleId.data) :
    '[' ∉ (sourceURLTrailer moduleId).data := by
  intro hmem
  rw [sourceURLTrailer, String.data_append, String.data_append] at hmem
  rcases List.mem_append.mp hmem with h | h
  · rcases List.mem_append.mp h with h2 | h2
    · revert h2
      decide
    · exact hmod h2
  · revert h
    decide

theorem trailer_head (moduleId : String) :
    (sourceURLTrailer moduleId).data.head? = some '\n' := by
  have h1 : ("\n//# sourceURL=webpack-internal:///" : String).data =
      '\n' :: ("//# sourceURL=webpack-internal:///" : String).data := by decide
  rw [sourceURLTrailer, String.data_append, String.data_append, h1]
  simp

/-- C8: (i) after de-duplication by appended markers, two otherwise-identical
entries of the map's `sources` list never collide; (ii) the emitted footer
contains no remaining `url` placeholder - every occurrence was substituted;
(iii) each placeholder occurrence is substituted by exactly the
base64-encoded data URI of the JSON map; (iv) the footer carries the
`sourceURL` trailer for debugger attribution; (v) the substituted payload is
built from the base64 alphabet (plus padding). -/
theorem eval_sourcemap_dedup_and_footer (moduleId : String)
    (hmod : '[' ∉ moduleId.data) :
    (∀ (l : List String) (i j : Nat) (hi : i < l.length) (hj : j < l.length),
        i ≠ j → l.get ⟨i, hi⟩ = l.get ⟨j, hj⟩ →
        (replaceDuplicates l).getD i "" ≠ (replaceDuplicates l).getD j "")
    ∧ (∀ comment mapJson : String,
        hasUrl (evalFooter comment mapJson moduleId).data = false)
    ∧ (∀ (mapJson : String) (t : List Char),
        substUrl (dataUri mapJson).data (urlPattern ++ t) =
          (dataUri mapJson).data ++ substUrl (dataUri mapJson).data t)
    ∧ (∀ comment mapJson : String, ∃ pre : String,
        evalFooter comment mapJson moduleId = pre ++ sourceURLTrailer moduleId)
    ∧ (∀ (mapJson : String) (ch : Char),
        ch ∈ base64Encode (utf8Encode mapJson.data) → ch ∈ base64Table ∨ ch = '=') := by
  refine ⟨?_, ?_, ?_, ?_, ?_⟩
  · exact fun l i j hi hj hij heq => replaceDuplicates_ne l i j hi hj hij heq
  · intro comment mapJson
    have hdata : (evalFooter comment mapJson moduleId).data =
        substUrl (dataUri mapJson).data comment.data ++ (sourceURLTrailer moduleId).data := by
      rw [evalFooter, String.data_append]
    rw [hdata]
    have hpref : dataUriPrefix.data =
        'd' :: ("ata:application/json;charset=utf-8;base64," : String).data := by
      decide
    have hsplit : (dataUri mapJson).data =
        'd' :: (("ata:application/json;charset=utf-8;base64," : String).data ++
          base64Encode (utf8Encode mapJson.data)) := by
      rw [dataUri, String.data_append, hpref, List.cons_append]
    apply hasUrl_append_boundary
    · exact hasUrl_substUrl (dataUri mapJson).data 'd' _ hsplit
        (no_bracket_dataUri mapJson) (by decide) (by decide) (by decide) (by decide)
        comment.data.length comment.data le_rfl
    · exact hasUrl_of_no_bracket _ (no_bracket_trailer moduleId hmod)
    · intro q hq
      rw [trailer_head moduleId] at hq
      injection hq with hq2
      rw [← hq2]
      refine ⟨by decide, by decide, by decide, by decide⟩
  · intro mapJson t
    have hpat : urlPattern ++ t = '[' :: 'u' :: 'r' :: 'l' :: ']' :: t := by
      simp [urlPattern]
    have hcond : ('[' :: 'u' :: 'r' :: 'l' :: ']' :: t).take 5 = urlPattern := by
      simp [urlPattern]
    rw [hpat, substUrl_cons_pos _ _ _ hcond]
    congr 1
  · intro comment mapJson
    exact ⟨String.mk (substUrl (dataUri mapJson).data comment.data), rfl⟩
  · intro mapJson ch h
    exact base64Encode_mem _ ch h

theorem eval_sourcemap_dedup_and_footer_witness :
    '[' ∉ ("7" : String).data
    ∧ ((∀ (l : List String) (i j : Nat) (hi : i < l.length) (hj : j < l.length),
          i ≠ j → l.get ⟨i, hi⟩ = l.get ⟨j, hj⟩ →
          (replaceDuplicates l).getD i "" ≠ (replaceDuplicates l).getD j "")
      ∧ (∀ comment mapJson : String,
          hasUrl (evalFooter comment mapJson "7").data = false)
      ∧ (∀ (mapJson : String) (t : List Char),
          substUrl (dataUri mapJson).data (urlPattern ++ t) =
            (dataUri mapJson).data ++ substUrl (dataUri mapJson).data t)
      ∧ (∀ comment mapJson : String, ∃ pre : String,
          evalFooter comment mapJson "7" = pre ++ sourceURLTrailer "7")
      ∧ (∀ (mapJson : String) (ch : Char),
          ch ∈ base64Encode (utf8Encode mapJson.data) → ch ∈ base64Table ∨ ch = '=')) :=
  ⟨by decide, eval_sourcemap_dedup_and_footer "7" (by decide)⟩

end Webpack
